import Mathlib

/-!
Verification of the csv-notion-db-converter reconciliation and upsert engine.

The definitions below are a shallow embedding of `src/csv_to_notion.py`:
CSV rows and Notion pages become association lists, Python's raised
exceptions become `Except` values, and the HTTP environment (stored pages,
response sequences) is made an explicit parameter.
-/

namespace CsvNotion

/-- Split a list of characters on the comma character, mirroring Python's
`value.split(",")`: the empty input yields one empty token, and adjacent
commas yield empty tokens. `acc` holds the current token reversed. -/
def splitCommaChars : List Char → List Char → List (List Char)
  | [], acc => [acc.reverse]
  | c :: cs, acc =>
    if c = ',' then acc.reverse :: splitCommaChars cs [] else splitCommaChars cs (c :: acc)

/-- Python `value.split(",")` on strings. -/
def pySplitComma (s : String) : List String :=
  (splitCommaChars s.data []).map String.mk

/-- Python `v.strip()`: drop whitespace from both ends. -/
def pyStrip (s : String) : String :=
  String.mk (((s.data.dropWhile Char.isWhitespace).reverse.dropWhile Char.isWhitespace).reverse)

/-- Python `sep.join(l)`. -/
def joinSep (sep : String) : List String → String
  | [] => ""
  | [v] => v
  | v :: rest => v ++ sep ++ joinSep sep rest

/-- Python dict lookup (first binding wins; dict keys are unique anyway). -/
def alookup {α : Type} (l : List (String × α)) (k : String) : Option α :=
  match l with
  | [] => none
  | (k', v) :: rest => if k' = k then some v else alookup rest k

/-- Python dict assignment `d[k] = v`: replace in place if the key exists,
otherwise append at the end (insertion order). -/
def dictInsert {α : Type} (l : List (String × α)) (k : String) (v : α) : List (String × α) :=
  match l with
  | [] => [(k, v)]
  | (k', v') :: rest => if k' = k then (k, v) :: rest else (k', v') :: dictInsert rest k v

/-- One entry of `config.CSV_TO_NOTION_MAPPING`: the Notion property name
and the Notion type string. -/
structure MapInfo where
  notion : String
  type : String
deriving DecidableEq

/-- A CSV row as produced by `csv.DictReader`: column name to cell string. -/
abbrev Row := List (String × String)

/-- `config.CSV_TO_NOTION_MAPPING`: CSV column name to `MapInfo`,
in dict insertion order. -/
abbrev Mapping := List (String × MapInfo)

/-- The Python exceptions the embedded code can raise: `KeyError`
(missing dict key), a shape mismatch when a property's JSON does not have
the accessed sub-key, the two duplicate-composite-key `ValueError`s
(which carry the offending key), and exhaustion of the modelled response
sequence while the retry loop still wants to issue a request. -/
inductive PyErr where
  | keyError (key : String)
  | shapeError (prop : String)
  | dupLocalKey (key : String)
  | dupRemoteKey (key : String)
  | noResponse
deriving DecidableEq

instance {ε α : Type} [DecidableEq ε] [DecidableEq α] : DecidableEq (Except ε α)
  | .ok a, .ok b =>
    if h : a = b then .isTrue (congrArg Except.ok h) else .isFalse (fun c => h (Except.ok.inj c))
  | .error e, .error f =>
    if h : e = f then .isTrue (congrArg Except.error h)
    else .isFalse (fun c => h (Except.error.inj c))
  | .ok _, .error _ => .isFalse (fun c => Except.noConfusion c)
  | .error _, .ok _ => .isFalse (fun c => Except.noConfusion c)

/-- Python `row[k]`: raises `KeyError` when the column is absent. -/
def rowGet (row : Row) (k : String) : Except PyErr String :=
  match alookup row k with
  | some v => .ok v
  | none => .error (.keyError k)

/-- Sequential effectful map over `Except`, mirroring a Python `for` loop
that builds a list and propagates the first raised exception. -/
def mapE {α β : Type} (f : α → Except PyErr β) : List α → Except PyErr (List β)
  | [] => .ok []
  | a :: l => do
    let b ← f a
    let bs ← mapE f l
    .ok (b :: bs)

/-- `extract_composite_key(row, keys)`: join the raw cell strings of the
key columns with the `::` delimiter (KeyError on a missing column). -/
def extract_composite_key (row : Row) (keys : List String) : Except PyErr String := do
  let vs ← mapE (rowGet row) keys
  .ok (joinSep "::" vs)

/-- The stored shape of one Notion page property, as the typed JSON value
the Python code indexes into: rich-text arrays carry their segments'
`plain_text` strings, select carries an optional chosen name, the list
kinds carry names or identifiers, and the last-edited kinds carry the
system values. -/
inductive NotionProp where
  | title (segs : List String)
  | rich_text (segs : List String)
  | select (name : Option String)
  | multi_select (names : List String)
  | relation (ids : List String)
  | people (ids : List String)
  | last_edited_by (id : Option String)
  | last_edited_time (t : String)
deriving DecidableEq

/-- A Notion page: its stable id plus its `properties` dict. -/
structure Page where
  id : String
  props : List (String × NotionProp)
deriving DecidableEq

/-- The per-key-column body of `extract_notion_composite_key`: given the
mapping entry for the column and the page property found under its Notion
name (`none` when the property dict lacks it), produce the decoded string.
Mirrors the Python `if typ == ...` chain: a known type accesses the
property (KeyError when absent, shape error when its JSON lacks the
accessed sub-key), while an unknown type leaves `value = ""` untouched
without ever accessing the property. -/
def decodeProp (mi : MapInfo) (p : Option NotionProp) : Except PyErr String :=
  if mi.type = "title" then
    match p with
    | some (.title segs) => .ok (segs.headD "")
    | some _ => .error (.shapeError mi.notion)
    | none => .error (.keyError mi.notion)
  else if mi.type = "text" then
    match p with
    | some (.rich_text segs) => .ok (segs.headD "")
    | some _ => .error (.shapeError mi.notion)
    | none => .error (.keyError mi.notion)
  else if mi.type = "select" then
    match p with
    | some (.select name) => .ok (name.getD "")
    | some _ => .error (.shapeError mi.notion)
    | none => .error (.keyError mi.notion)
  else if mi.type = "multi_select" then
    match p with
    | some (.multi_select names) =>
      .ok (if names.isEmpty then "" else joinSep "," names)
    | some _ => .error (.shapeError mi.notion)
    | none => .error (.keyError mi.notion)
  else if mi.type = "relation" then
    match p with
    | some (.relation ids) => .ok (if ids.isEmpty then "" else joinSep "," ids)
    | some _ => .error (.shapeError mi.notion)
    | none => .error (.keyError mi.notion)
  else if mi.type = "people" then
    match p with
    | some (.people ids) => .ok (if ids.isEmpty then "" else joinSep "," ids)
    | some _ => .error (.shapeError mi.notion)
    | none => .error (.keyError mi.notion)
  else if mi.type = "last_edited_by" then
    match p with
    | some (.last_edited_by id) => .ok (id.getD "")
    | some _ => .error (.shapeError mi.notion)
    | none => .error (.keyError mi.notion)
  else if mi.type = "last_edited_time" then
    match p with
    | some (.last_edited_time t) => .ok (if t = "" then "" else t)
    | some _ => .error (.shapeError mi.notion)
    | none => .error (.keyError mi.notion)
  else
    .ok ""

/-- `extract_notion_composite_key(page, mapping, keys)`: for each key
column look up its mapping entry (KeyError when absent), decode the mapped
Notion property by its configured type, and join with `::`. -/
def extract_notion_composite_key (page : Page) (mapping : Mapping) (keys : List String) :
    Except PyErr String := do
  let vs ← mapE (fun k =>
    match alookup mapping k with
    | none => .error (.keyError k)
    | some mi => decodeProp mi (alookup page.props mi.notion)) keys
  .ok (joinSep "::" vs)

/-- The shape of one property inside the JSON payload that
`make_notion_payload` builds for a create or update request. A rich-text
payload carries the single segment's `text.content`; select carries
either an explicit null or a named choice; the list kinds carry the
split-and-trimmed tokens. -/
inductive PayloadValue where
  | title (content : String)
  | rich_text (content : String)
  | select (name : Option String)
  | multi_select (names : List String)
  | relation (ids : List String)
  | people (ids : List String)
  | last_edited_by (id : String)
  | last_edited_time (t : String)
deriving DecidableEq

/-- The comma-split list comprehension used by the `multi_select`,
`relation` and `people` branches of `make_notion_payload`:
split on commas, strip each token, keep the non-empty ones. -/
def splitNormalize (s : String) : List String :=
  ((pySplitComma s).map pyStrip).filter (fun v => v ≠ "")

/-- One branch of `make_notion_payload`'s `if typ == ...` chain: the
payload property written for a cell `value` of configured type `typ`,
or `none` when no property is assigned (empty last-edited values and
unknown types fall through without touching the props dict). -/
def encodeField (typ value : String) : Option PayloadValue :=
  if typ = "title" then some (.title value)
  else if typ = "text" then some (.rich_text value)
  else if typ = "select" then
    (if value ≠ "" then some (.select (some value)) else some (.select none))
  else if typ = "multi_select" then some (.multi_select (splitNormalize value))
  else if typ = "relation" then some (.relation (splitNormalize value))
  else if typ = "people" then some (.people (splitNormalize value))
  else if typ = "last_edited_by" then
    (if value ≠ "" then some (.last_edited_by value) else none)
  else if typ = "last_edited_time" then
    (if value ≠ "" then some (.last_edited_time value) else none)
  else none

/-- The property dict of a request payload. -/
abbrev Props := List (String × PayloadValue)

/-- The loop of `make_notion_payload` over the mapping entries, threading
the props dict; `row[csv_col]` raises `KeyError` on a missing column. -/
def payloadAux (row : Row) : Mapping → Props → Except PyErr Props
  | [], props => .ok props
  | (c, mi) :: rest, props => do
    let v ← rowGet row c
    match encodeField mi.type v with
    | some pv => payloadAux row rest (dictInsert props mi.notion pv)
    | none => payloadAux row rest props

/-- `make_notion_payload(row, mapping)`, restricted to the `properties`
part of the returned payload (the `parent` part is a config constant). -/
def make_notion_payload (row : Row) (mapping : Mapping) : Except PyErr Props :=
  payloadAux row mapping []

/-- Environment model of the remote service materializing a written
payload property into the stored page property later read back: a single
rich-text segment's `plain_text` equals its `text.content`; every other
shape is stored verbatim. -/
def payloadToProp : PayloadValue → NotionProp
  | .title c => .title [c]
  | .rich_text c => .rich_text [c]
  | .select o => .select o
  | .multi_select ns => .multi_select ns
  | .relation ids => .relation ids
  | .people ids => .people ids
  | .last_edited_by i => .last_edited_by (some i)
  | .last_edited_time t => .last_edited_time t

/-- The page the remote service stores after a create call with the given
payload props: same property names, each value materialized. -/
def pageOfPayload (pid : String) (props : Props) : Page :=
  ⟨pid, props.map (fun p => (p.1, payloadToProp p.2))⟩

/-- `filter_new_rows`' loop over the CSV rows, given the set of remote
composite keys: a row whose key is absent goes to the new list, a row
whose key is present goes to the update list, in original order. -/
def filterAux (keys : List String) (notionKeys : List String) :
    List Row → Except PyErr (List Row × List Row)
  | [] => .ok ([], [])
  | r :: rs => do
    let k ← extract_composite_key r keys
    let (n, u) ← filterAux keys notionKeys rs
    if k ∈ notionKeys then .ok (n, r :: u) else .ok (r :: n, u)

/-- `filter_new_rows(csv_rows, notion_pages, mapping, composite_keys)`:
build the set of remote composite keys, then classify each CSV row. -/
def filter_new_rows (csvRows : List Row) (pages : List Page) (mapping : Mapping)
    (keys : List String) : Except PyErr (List Row × List Row) := do
  let notionKeys ← mapE (fun p => extract_notion_composite_key p mapping keys) pages
  filterAux keys notionKeys csvRows

/-- The loop of `load_csv`, threading the seen-key set: raise the
duplicate-local-key `ValueError` (naming the key) on the first row whose
composite key was already seen. -/
def load_csvAux (keys : List String) : List Row → List String → Except PyErr (List Row)
  | [], _ => .ok []
  | r :: rs, seen => do
    let k ← extract_composite_key r keys
    if k ∈ seen then .error (.dupLocalKey k)
    else do
      let rest ← load_csvAux keys rs (k :: seen)
      .ok (r :: rest)

/-- `load_csv(csv_path, composite_keys)`: the parsed CSV rows are the
input; returns them in order after the incremental duplicate check. -/
def load_csv (rows : List Row) (keys : List String) : Except PyErr (List Row) :=
  load_csvAux keys rows []

/-- The inner per-page loop of `get_notion_db_items` over one result
batch, threading the seen-key set: raise the duplicate-remote-key
`ValueError` (naming the key) on the first repeated composite key. -/
def scanPages (mapping : Mapping) (keys : List String) :
    List Page → List String → Except PyErr (List Page × List String)
  | [], seen => .ok ([], seen)
  | p :: ps, seen => do
    let k ← extract_notion_composite_key p mapping keys
    if k ∈ seen then .error (.dupRemoteKey k)
    else do
      let (rest, seen') ← scanPages mapping keys ps (k :: seen)
      .ok (p :: rest, seen')

/-- The pagination loop of `get_notion_db_items`: one query per batch
until the has-more flag is false, accumulating results in arrival order.
The paginated responses are the input. -/
def fetchAux (mapping : Mapping) (keys : List String) :
    List (List Page) → List String → Except PyErr (List Page)
  | [], _ => .ok []
  | b :: bs, seen => do
    let (res, seen') ← scanPages mapping keys b seen
    let rest ← fetchAux mapping keys bs seen'
    .ok (res ++ rest)

/-- `get_notion_db_items(mapping, composite_keys)` over the given
paginated batches. -/
def get_notion_db_items (batches : List (List Page)) (mapping : Mapping)
    (keys : List String) : Except PyErr (List Page) :=
  fetchAux mapping keys batches []

/-- One HTTP response in the modelled environment: status code, the
optional parsed Retry-After header, and the body text. -/
structure Resp where
  status : Nat
  retryAfter : Option Nat
  text : String
deriving DecidableEq

/-- The `while True` request loop shared by `register_to_notion` and
`update_notion`, run against a modelled response sequence: a 200 ends the
loop successfully, a 429 sleeps for the Retry-After duration (default 1)
and retries, and any other status ends the loop as a permanent failure.
Returns the performed sleep durations in order plus the final response;
errors only when the response sequence is exhausted mid-loop. -/
def sendWithRetry : List Resp → Except PyErr (List Nat × Resp)
  | [] => .error .noResponse
  | r :: rs =>
    if r.status = 200 then .ok ([], r)
    else if r.status = 429 then do
      let (ws, fin) ← sendWithRetry rs
      .ok ((r.retryAfter.getD 1) :: ws, fin)
    else .ok ([], r)

/-- The per-record console outcomes of the write phase: a created or
updated record (with the page id the PATCH was issued against), a
permanent per-record failure carrying the composite key and the response
body, or an update row whose page id was not found. -/
inductive WriteEvent where
  | created (key : String)
  | createFailed (key : String) (detail : String)
  | updated (key : String) (pageId : String)
  | updateFailed (key : String) (pageId : String) (detail : String)
  | missingPage (key : String)
deriving DecidableEq

/-- The body of `register_to_notion`'s row loop for one row and its
response sequence: build the payload, run the request loop, then report
the row's composite key as created or permanently failed. -/
def registerRow (mapping : Mapping) (keys : List String) (x : Row × List Resp) :
    Except PyErr WriteEvent := do
  let _ ← make_notion_payload x.1 mapping
  let (_, fin) ← sendWithRetry x.2
  let k ← extract_composite_key x.1 keys
  if fin.status = 200 then .ok (.created k) else .ok (.createFailed k fin.text)

/-- `register_to_notion(rows, mapping)`: process each new row in order,
each exactly once; a raised exception aborts the whole loop. -/
def register_to_notion (mapping : Mapping) (keys : List String) :
    List (Row × List Resp) → Except PyErr (List WriteEvent)
  | [] => .ok []
  | x :: xs => do
    let e ← registerRow mapping keys x
    let es ← register_to_notion mapping keys xs
    .ok (e :: es)

/-- The page-id scan of `update_notion`: the id of the first page whose
remote composite key equals the row's key, or `none` when no page
matches; a key-extraction exception aborts. -/
def findPageId (rowKey : String) (mapping : Mapping) (keys : List String) :
    List Page → Except PyErr (Option String)
  | [] => .ok none
  | p :: ps => do
    let k ← extract_notion_composite_key p mapping keys
    if k = rowKey then .ok (some p.id) else findPageId rowKey mapping keys ps

/-- The body of `update_notion`'s row loop for one row and its response
sequence: extract the row key, scan the pages for the matching page id
(missing id is reported and the loop continues), build the payload, and
run the PATCH request loop against that page id. -/
def updateRow (mapping : Mapping) (keys : List String) (pages : List Page)
    (x : Row × List Resp) : Except PyErr WriteEvent := do
  let rk ← extract_composite_key x.1 keys
  let pid? ← findPageId rk mapping keys pages
  match pid? with
  | none => .ok (.missingPage rk)
  | some pid => do
    let _ ← make_notion_payload x.1 mapping
    let (_, fin) ← sendWithRetry x.2
    if fin.status = 200 then .ok (.updated rk pid) else .ok (.updateFailed rk pid fin.text)

/-- `update_notion(update_rows, notion_pages, mapping, composite_keys)`:
process each update row in order, each exactly once. -/
def update_notion (mapping : Mapping) (keys : List String) (pages : List Page) :
    List (Row × List Resp) → Except PyErr (List WriteEvent)
  | [] => .ok []
  | x :: xs => do
    let e ← updateRow mapping keys pages x
    let es ← update_notion mapping keys pages xs
    .ok (e :: es)

/-- Pair each row with its own response sequence from a response oracle
indexed by the row's position in the list. -/
def withResps (rows : List Row) (oracle : Nat → List Resp) : List (Row × List Resp) :=
  rows.enum.map (fun p => (p.2, oracle p.1))

/-- `main()` after argument parsing and config assertions: load the CSV,
fetch the remote pages, classify, and (unless dry-run) create the new
rows then update the existing ones, returning all write events. The
process exit status is success exactly when no exception escapes. -/
def main_run (rows : List Row) (batches : List (List Page)) (mapping : Mapping)
    (keys : List String) (createOracle updateOracle : Nat → List Resp) (dryrun : Bool) :
    Except PyErr (List WriteEvent) := do
  let csvRows ← load_csv rows keys
  let pages ← get_notion_db_items batches mapping keys
  let (newRows, updateRows) ← filter_new_rows csvRows pages mapping keys
  if dryrun then .ok []
  else do
    let es1 ← register_to_notion mapping keys (withResps newRows createOracle)
    let es2 ← update_notion mapping keys pages (withResps updateRows updateOracle)
    .ok (es1 ++ es2)

/-- The process exit status of a run: 0 on normal completion (whatever
the per-record write events were), nonzero when an exception escaped. -/
def exitCode (r : Except PyErr (List WriteEvent)) : Nat :=
  match r with
  | .ok _ => 0
  | .error _ => 1

/-- The spec's `normalize`: split on commas, trim whitespace from each
token, drop empty tokens, rejoin with commas. -/
def normalize (s : String) : String :=
  joinSep "," (((pySplitComma s).map pyStrip).filter (fun v => v ≠ ""))

/-- A cell value survives the encode-then-decode round trip for its
mapping entry: encoding assigns a payload property and decoding the
stored form of that property yields the original cell back. -/
def fieldRoundtrip (mi : MapInfo) (v : String) : Prop :=
  ∃ pv, encodeField mi.type v = some pv ∧ decodeProp mi (some (payloadToProp pv)) = .ok v

/-- Whether a CSV row's composite key is present among the remote
composite keys (false as well when key extraction would raise). -/
def keyHit (keys notionKeys : List String) (r : Row) : Bool :=
  match extract_composite_key r keys with
  | .ok k => decide (k ∈ notionKeys)
  | .error _ => false

/-- The full list of Notion type strings `make_notion_payload` has a
branch for. -/
def supportedKinds : List String :=
  ["title", "text", "select", "multi_select", "relation", "people",
   "last_edited_by", "last_edited_time"]

/-! ### Basic lemmas about the embedded primitives -/

lemma ok_bind {α β : Type} (a : α) (f : α → Except PyErr β) :
    (Except.ok a >>= f) = f a := rfl

lemma error_bind {α β : Type} (e : PyErr) (f : α → Except PyErr β) :
    (Except.error e >>= f : Except PyErr β) = Except.error e := rfl

lemma alookup_map_val {α β : Type} (f : α → β) (l : List (String × α)) (k : String) :
    alookup (l.map (fun p => (p.1, f p.2))) k = (alookup l k).map f := by
  induction l with
  | nil => rfl
  | cons hd tl ih =>
    obtain ⟨k', v⟩ := hd
    by_cases h : k' = k
    · simp [alookup, h]
    · simp [alookup, h, ih]

lemma dictInsert_lookup_self {α : Type} (l : List (String × α)) (k : String) (v : α) :
    alookup (dictInsert l k v) k = some v := by
  induction l with
  | nil => simp [dictInsert, alookup]
  | cons hd tl ih =>
    obtain ⟨k', v'⟩ := hd
    by_cases h : k' = k
    · simp [dictInsert, h, alookup]
    · simp [dictInsert, h, alookup, ih]

lemma dictInsert_lookup_ne {α : Type} (l : List (String × α)) (k k' : String) (v : α)
    (h : k' ≠ k) : alookup (dictInsert l k' v) k = alookup l k := by
  induction l with
  | nil => simp [dictInsert, alookup, h]
  | cons hd tl ih =>
    obtain ⟨k'', v''⟩ := hd
    by_cases h2 : k'' = k'
    · simp [dictInsert, h2, alookup, h]
    · by_cases h3 : k'' = k
      · simp [dictInsert, h2, alookup, h3, Ne.symm h]
      · simp [dictInsert, h2, alookup, h3, ih]

lemma mapE_append {α β : Type} (f : α → Except PyErr β) (xs ys : List α)
    (a b : List β) (hx : mapE f xs = .ok a) (hy : mapE f ys = .ok b) :
    mapE f (xs ++ ys) = .ok (a ++ b) := by
  induction xs generalizing a with
  | nil =>
    simp [mapE] at hx
    subst hx
    simpa using hy
  | cons x xs ih =>
    cases hfx : f x with
    | error e => simp [mapE, hfx, error_bind] at hx
    | ok v =>
      simp [mapE, hfx, ok_bind] at hx ⊢
      cases hrest : mapE f xs with
      | error e => simp [hrest, error_bind] at hx
      | ok vs =>
        simp [hrest, ok_bind] at hx
        subst hx
        simp [ih vs hrest, ok_bind]

lemma mapE_mem_ok {α β : Type} (f : α → Except PyErr β) (l : List α) (ks : List β)
    (h : mapE f l = .ok ks) (x : α) (hx : x ∈ l) : ∃ b, f x = .ok b ∧ b ∈ ks := by
  induction l generalizing ks with
  | nil => cases hx
  | cons y ys ih =>
    cases hfy : f y with
    | error e => simp [mapE, hfy, error_bind] at h
    | ok v =>
      cases hrest : mapE f ys with
      | error e => simp [mapE, hfy, ok_bind, hrest, error_bind] at h
      | ok vs =>
        simp [mapE, hfy, ok_bind, hrest, error_bind] at h
        subst h
        rcases List.mem_cons.mp hx with hx | hx
        · subst hx
          exact ⟨v, hfy, List.mem_cons_self _ _⟩
        · obtain ⟨b, hb1, hb2⟩ := ih vs hrest hx
          exact ⟨b, hb1, List.mem_cons_of_mem _ hb2⟩

/-! ### Payload construction lemmas -/

lemma payloadAux_ok (row : Row) (mapping : Mapping) (props : Props)
    (h : ∀ p ∈ mapping, ∃ v, rowGet row p.1 = .ok v) :
    ∃ ps, payloadAux row mapping props = .ok ps := by
  induction mapping generalizing props with
  | nil => exact ⟨props, rfl⟩
  | cons hd tl ih =>
    obtain ⟨c, mi⟩ := hd
    obtain ⟨v, hv⟩ := h (c, mi) (List.mem_cons_self _ _)
    have htl : ∀ p ∈ tl, ∃ v, rowGet row p.1 = .ok v :=
      fun p hp => h p (List.mem_cons_of_mem _ hp)
    cases henc : encodeField mi.type v with
    | none =>
      obtain ⟨ps, hps⟩ := ih props htl
      exact ⟨ps, by simp [payloadAux, hv, ok_bind, henc, hps]⟩
    | some pv =>
      obtain ⟨ps, hps⟩ := ih (dictInsert props mi.notion pv) htl
      exact ⟨ps, by simp [payloadAux, hv, ok_bind, henc, hps]⟩

lemma payloadAux_lookup_other (row : Row) (mapping : Mapping) (props ps : Props)
    (n : String) (hn : ∀ p ∈ mapping, p.2.notion ≠ n)
    (h : payloadAux row mapping props = .ok ps) :
    alookup ps n = alookup props n := by
  induction mapping generalizing props with
  | nil =>
    simp [payloadAux] at h
    subst h
    rfl
  | cons hd tl ih =>
    obtain ⟨c, mi⟩ := hd
    cases hv : rowGet row c with
    | error e => simp [payloadAux, hv, error_bind] at h
    | ok v =>
      have htl : ∀ p ∈ tl, p.2.notion ≠ n := fun p hp => hn p (List.mem_cons_of_mem _ hp)
      cases henc : encodeField mi.type v with
      | none =>
        simp [payloadAux, hv, ok_bind, henc] at h
        exact ih props htl h
      | some pv =>
        simp [payloadAux, hv, ok_bind, henc] at h
        rw [ih (dictInsert props mi.notion pv) htl h]
        exact dictInsert_lookup_ne props n mi.notion pv (hn (c, mi) (List.mem_cons_self _ _))

lemma payloadAux_lookup (row : Row) (mapping : Mapping) (props ps : Props)
    (c : String) (mi : MapInfo) (v : String) (pv : PayloadValue)
    (hmem : (c, mi) ∈ mapping)
    (hnodup : (mapping.map (fun p => p.2.notion)).Nodup)
    (hv : rowGet row c = .ok v)
    (henc : encodeField mi.type v = some pv)
    (h : payloadAux row mapping props = .ok ps) :
    alookup ps mi.notion = some pv := by
  induction mapping generalizing props with
  | nil => cases hmem
  | cons hd tl ih =>
    obtain ⟨c', mi'⟩ := hd
    have hnodup_tl : (tl.map (fun p => p.2.notion)).Nodup := (List.nodup_cons.mp hnodup).2
    rcases List.mem_cons.mp hmem with heq | htl_mem
    · injection heq with hc hmi
      subst hc
      subst hmi
      cases hv' : rowGet row c with
      | error e => simp [payloadAux, hv', error_bind] at h
      | ok v' =>
        have : v' = v := by
          rw [hv] at hv'
          exact (Except.ok.inj hv').symm
        subst this
        simp [payloadAux, hv', ok_bind, henc] at h
        have hother : ∀ p ∈ tl, p.2.notion ≠ mi.notion := by
          intro p hp hcontra
          have hni : mi.notion ∉ tl.map (fun q => q.2.notion) := by
            simpa using (List.nodup_cons.mp hnodup).1
          exact hni (hcontra ▸ List.mem_map_of_mem (fun q => q.2.notion) hp)
        rw [payloadAux_lookup_other row tl (dictInsert props mi.notion pv) ps mi.notion hother h]
        exact dictInsert_lookup_self props mi.notion pv
    · cases hv' : rowGet row c' with
      | error e => simp [payloadAux, hv', error_bind] at h
      | ok v' =>
        cases henc' : encodeField mi'.type v' with
        | none =>
          simp [payloadAux, hv', ok_bind, henc'] at h
          exact ih props htl_mem hnodup_tl h
        | some pv' =>
          simp [payloadAux, hv', ok_bind, henc'] at h
          exact ih (dictInsert props mi'.notion pv') htl_mem hnodup_tl h

lemma encodeField_unsupported (typ v : String) (h : typ ∉ supportedKinds) :
    encodeField typ v = none := by
  simp [supportedKinds] at h
  obtain ⟨h1, h2, h3, h4, h5, h6, h7, h8⟩ := h
  simp [encodeField, h1, h2, h3, h4, h5, h6, h7, h8]

/-! ### Codec round-trip lemmas -/

lemma joinSep_if_empty (l : List String) :
    (if l.isEmpty then "" else joinSep "," l) = joinSep "," l := by
  cases l <;> rfl

lemma normalize_eq_join (s : String) : normalize s = joinSep "," (splitNormalize s) := rfl

lemma roundtrip_basic (mi : MapInfo) (v : String)
    (h : mi.type ∈ ["title", "text", "select"]) : fieldRoundtrip mi v := by
  simp at h
  rcases h with h | h | h
  · exact ⟨.title v, by simp [encodeField, h], by simp [decodeProp, h, payloadToProp]⟩
  · refine ⟨.rich_text v, ?_, ?_⟩
    · simp [encodeField, h]
    · simp [decodeProp, h, payloadToProp]
  · by_cases hv : v = ""
    · refine ⟨.select none, ?_, ?_⟩
      · simp [encodeField, h, hv]
      · simp [decodeProp, h, payloadToProp, hv]
    · refine ⟨.select (some v), ?_, ?_⟩
      · simp [encodeField, h, hv]
      · simp [decodeProp, h, payloadToProp]

lemma roundtrip_list_iff (mi : MapInfo) (v : String)
    (h : mi.type ∈ ["multi_select", "relation", "people"]) :
    (fieldRoundtrip mi v ↔ normalize v = v) := by
  simp at h
  rcases h with h | h | h
  · have hdec : decodeProp mi (some (payloadToProp (.multi_select (splitNormalize v)))) =
        .ok (normalize v) := by
      simp [decodeProp, h, payloadToProp, joinSep_if_empty, normalize_eq_join]
      intro h0
      simp [h0, joinSep]
    constructor
    · rintro ⟨pv, hpv, hd⟩
      simp [encodeField, h] at hpv
      subst hpv
      rw [hdec] at hd
      exact Except.ok.inj hd
    · intro hn
      exact ⟨.multi_select (splitNormalize v), by simp [encodeField, h], by rw [hdec, hn]⟩
  · have hdec : decodeProp mi (some (payloadToProp (.relation (splitNormalize v)))) =
        .ok (normalize v) := by
      simp [decodeProp, h, payloadToProp, joinSep_if_empty, normalize_eq_join]
      intro h0
      simp [h0, joinSep]
    constructor
    · rintro ⟨pv, hpv, hd⟩
      simp [encodeField, h] at hpv
      subst hpv
      rw [hdec] at hd
      exact Except.ok.inj hd
    · intro hn
      exact ⟨.relation (splitNormalize v), by simp [encodeField, h], by rw [hdec, hn]⟩
  · have hdec : decodeProp mi (some (payloadToProp (.people (splitNormalize v)))) =
        .ok (normalize v) := by
      simp [decodeProp, h, payloadToProp, joinSep_if_empty, normalize_eq_join]
      intro h0
      simp [h0, joinSep]
    constructor
    · rintro ⟨pv, hpv, hd⟩
      simp [encodeField, h] at hpv
      subst hpv
      rw [hdec] at hd
      exact Except.ok.inj hd
    · intro hn
      exact ⟨.people (splitNormalize v), by simp [encodeField, h], by rw [hdec, hn]⟩

/-! ### Composite-key agreement lemmas -/

lemma alookup_mem {α : Type} (l : List (String × α)) (k : String) (v : α)
    (h : alookup l k = some v) : (k, v) ∈ l := by
  induction l with
  | nil => cases h
  | cons hd tl ih =>
    obtain ⟨k', v'⟩ := hd
    by_cases hk : k' = k
    · simp [alookup, hk] at h
      subst hk
      subst h
      exact List.mem_cons_self _ _
    · simp [alookup, hk] at h
      exact List.mem_cons_of_mem _ (ih h)

lemma mapE_congr {α β : Type} (f g : α → Except PyErr β) (l : List α)
    (h : ∀ a ∈ l, f a = g a) : mapE f l = mapE g l := by
  induction l with
  | nil => rfl
  | cons x xs ih =>
    simp only [mapE]
    rw [h x (List.mem_cons_self _ _), ih (fun a ha => h a (List.mem_cons_of_mem _ ha))]

lemma extract_agree (row : Row) (mapping : Mapping) (keys : List String) (pid : String)
    (props : Props)
    (hpl : make_notion_payload row mapping = .ok props)
    (hnodup : (mapping.map (fun p => p.2.notion)).Nodup)
    (hkeys : ∀ k ∈ keys, ∃ mi v, alookup mapping k = some mi ∧ rowGet row k = .ok v ∧
      fieldRoundtrip mi v) :
    extract_notion_composite_key (pageOfPayload pid props) mapping keys =
      extract_composite_key row keys := by
  have hpoint : ∀ k ∈ keys,
      (match alookup mapping k with
       | none => (.error (.keyError k) : Except PyErr String)
       | some mi => decodeProp mi (alookup (pageOfPayload pid props).props mi.notion)) =
      rowGet row k := by
    intro k hk
    obtain ⟨mi, v, hmi, hv, pv, henc, hdec⟩ := hkeys k hk
    rw [hmi]
    show decodeProp mi (alookup (pageOfPayload pid props).props mi.notion) = rowGet row k
    have hlook : alookup props mi.notion = some pv :=
      payloadAux_lookup row mapping [] props k mi v pv (alookup_mem mapping k mi hmi)
        hnodup hv henc hpl
    have : alookup (pageOfPayload pid props).props mi.notion = some (payloadToProp pv) := by
      simp [pageOfPayload, alookup_map_val, hlook]
    rw [this, hdec, hv]
  unfold extract_notion_composite_key extract_composite_key
  rw [mapE_congr _ _ keys hpoint]

/-! ### Claims C1 and C2 -/

/-- C1 (counterexample): the claim as stated fails. With the single key
column `Group` of kind `multi_select` and local cell `A, B` (a space
after the comma), the remote record produced by encoding the local
record's cells decodes to `A,B`, so `extract_composite_key` yields
`A, B` while `extract_notion_composite_key` yields `A,B` — the two
composite keys differ for records representing the same logical entity. -/
theorem claim1_cex :
    make_notion_payload [("Group", "A, B")] [("Group", ⟨"Tags", "multi_select"⟩)] =
      .ok [("Tags", .multi_select ["A", "B"])] ∧
    extract_composite_key [("Group", "A, B")] ["Group"] = .ok "A, B" ∧
    extract_notion_composite_key (pageOfPayload "p1" [("Tags", .multi_select ["A", "B"])])
      [("Group", ⟨"Tags", "multi_select"⟩)] ["Group"] = .ok "A,B" ∧
    ("A, B" : String) ≠ "A,B" := by
  refine ⟨by decide, by decide, by decide, by decide⟩

/-- C1 (amended): `fromLocal` and `fromRemote` yield identical strings
for a remote record produced by encoding the local record's cells,
provided every key column's cell is a fixed point of its kind's
decode-after-encode round trip; that proviso holds unconditionally for
the `title`, `text` and `select` kinds, and for `multi_select`,
`relation` and `people` exactly when the cell already equals its
comma-normalized form. (The mapping's Notion property names are assumed
pairwise distinct so no later mapping entry overwrites a key field.) -/
theorem claim1_thm (row : Row) (mapping : Mapping) (keys : List String) (pid : String)
    (props : Props)
    (hpl : make_notion_payload row mapping = .ok props)
    (hnodup : (mapping.map (fun p => p.2.notion)).Nodup)
    (hkeys : ∀ k ∈ keys, ∃ mi v, alookup mapping k = some mi ∧ rowGet row k = .ok v ∧
      fieldRoundtrip mi v) :
    extract_notion_composite_key (pageOfPayload pid props) mapping keys =
      extract_composite_key row keys ∧
    (∀ mi : MapInfo, ∀ v : String, mi.type ∈ ["title", "text", "select"] →
      fieldRoundtrip mi v) ∧
    (∀ mi : MapInfo, ∀ v : String, mi.type ∈ ["multi_select", "relation", "people"] →
      (fieldRoundtrip mi v ↔ normalize v = v)) := by
  exact ⟨extract_agree row mapping keys pid props hpl hnodup hkeys,
    roundtrip_basic, roundtrip_list_iff⟩

/-- C1 (witness): the amended theorem applies to the concrete run with
key column `Name` of kind `title` and cell `Widget`. -/
theorem claim1_wit :
    extract_notion_composite_key
      (pageOfPayload "p9" [("N", .title "Widget"), ("G", .multi_select ["A", "B"])])
      [("Name", ⟨"N", "title"⟩), ("Group", ⟨"G", "multi_select"⟩)] ["Name"] =
    extract_composite_key [("Name", "Widget"), ("Group", "A, B")] ["Name"] := by
  have h := claim1_thm [("Name", "Widget"), ("Group", "A, B")]
    [("Name", ⟨"N", "title"⟩), ("Group", ⟨"G", "multi_select"⟩)] ["Name"] "p9"
    [("N", .title "Widget"), ("G", .multi_select ["A", "B"])]
    (by decide) (by decide)
    (by
      intro k hk
      have hkey : k = "Name" := by simpa using hk
      subst hkey
      exact ⟨⟨"N", "title"⟩, "Widget", by decide, by decide,
        ⟨.title "Widget", by decide, by decide⟩⟩)
  exact h.1

/-- C2: for every string `s` and every kind among `multi_select`,
`relation` and `people`, decoding the stored form of the encoded cell
yields `normalize s`: encode splits on commas, trims and drops empties,
and decode rejoins the stored names or identifiers with commas. -/
theorem claim2_thm (s typ n : String) (hs : s ≠ "")
    (ht : typ ∈ ["multi_select", "relation", "people"]) :
    ∃ pv, encodeField typ s = some pv ∧
      decodeProp ⟨n, typ⟩ (some (payloadToProp pv)) = .ok (normalize s) := by
  simp at ht
  rcases ht with h | h | h
  all_goals subst h
  · exact ⟨.multi_select (splitNormalize s), rfl, by
      simp [decodeProp, payloadToProp, joinSep_if_empty, normalize_eq_join]
      intro h0
      simp [h0, joinSep]⟩
  · exact ⟨.relation (splitNormalize s), rfl, by
      simp [decodeProp, payloadToProp, joinSep_if_empty, normalize_eq_join]
      intro h0
      simp [h0, joinSep]⟩
  · exact ⟨.people (splitNormalize s), rfl, by
      simp [decodeProp, payloadToProp, joinSep_if_empty, normalize_eq_join]
      intro h0
      simp [h0, joinSep]⟩

/-- C2 (witness): the round-trip law at the concrete cell `A, ,B ` of
kind `multi_select`, whose normalized form is `A,B`. -/
theorem claim2_wit :
    ("A, ,B " : String) ≠ "" ∧
    ∃ pv, encodeField "multi_select" "A, ,B " = some pv ∧
      decodeProp ⟨"P", "multi_select"⟩ (some (payloadToProp pv)) =
        .ok (normalize "A, ,B ") :=
  ⟨by decide, claim2_thm "A, ,B " "multi_select" "P" (by decide) (by decide)⟩

/-! ### Reconciler lemmas (claims C3 and C4) -/

lemma filterAux_eq (keys notionKeys : List String) (rows : List Row)
    (h : ∀ r ∈ rows, ∃ k, extract_composite_key r keys = .ok k) :
    filterAux keys notionKeys rows =
      .ok (rows.filter (fun r => !(keyHit keys notionKeys r)),
           rows.filter (keyHit keys notionKeys)) := by
  induction rows with
  | nil => rfl
  | cons r rs ih =>
    obtain ⟨k, hk⟩ := h r (List.mem_cons_self _ _)
    have ihh := ih (fun r hr => h r (List.mem_cons_of_mem _ hr))
    by_cases hmem : k ∈ notionKeys
    · have hhit : keyHit keys notionKeys r = true := by simp [keyHit, hk, hmem]
      simp [filterAux, hk, ok_bind, ihh, List.filter_cons, hhit, hmem]
    · have hhit : keyHit keys notionKeys r = false := by simp [keyHit, hk, hmem]
      simp [filterAux, hk, ok_bind, ihh, List.filter_cons, hhit, hmem]

lemma filterAux_mem_update (keys notionKeys : List String) (rows : List Row)
    (n u : List Row) (r : Row) (k : String)
    (hres : filterAux keys notionKeys rows = .ok (n, u))
    (hr : r ∈ rows) (hk : extract_composite_key r keys = .ok k) (hmem : k ∈ notionKeys) :
    r ∈ u := by
  induction rows generalizing n u with
  | nil => cases hr
  | cons r' rs ih =>
    cases hk' : extract_composite_key r' keys with
    | error e => simp [filterAux, hk', error_bind] at hres
    | ok k' =>
      cases hrest : filterAux keys notionKeys rs with
      | error e => simp [filterAux, hk', ok_bind, hrest, error_bind] at hres
      | ok p =>
        obtain ⟨n', u'⟩ := p
        rcases List.mem_cons.mp hr with hr0 | hr0
        · subst hr0
          have : k' = k := by
            rw [hk] at hk'
            exact (Except.ok.inj hk').symm
          subst this
          simp [filterAux, hk', ok_bind, hrest, hmem] at hres
          rw [← hres.2]
          exact List.mem_cons_self _ _
        · by_cases hm' : k' ∈ notionKeys
          · simp [filterAux, hk', ok_bind, hrest, hm'] at hres
            rw [← hres.2]
            exact List.mem_cons_of_mem _ (ih n' u' hrest hr0)
          · simp [filterAux, hk', ok_bind, hrest, hm'] at hres
            rw [← hres.2]
            exact ih n' u' hrest hr0

/-- C3: `filter_new_rows` classifies the local records in original
order purely by membership of their composite key in the set of remote
composite keys — the new list is exactly the subsequence of rows whose
key is absent, the update list exactly the subsequence whose key is
present; and when the local keys are pairwise distinct and none overlaps
a remote key, the result is the full local sequence as `toCreate` and an
empty `toUpdate`. -/
theorem claim3_thm (csvRows : List Row) (pages : List Page) (mapping : Mapping)
    (keys notionKeys localKeys : List String)
    (hpk : mapE (fun p => extract_notion_composite_key p mapping keys) pages = .ok notionKeys)
    (hlk : mapE (fun r => extract_composite_key r keys) csvRows = .ok localKeys) :
    filter_new_rows csvRows pages mapping keys =
      .ok (csvRows.filter (fun r => !(keyHit keys notionKeys r)),
           csvRows.filter (keyHit keys notionKeys)) ∧
    (localKeys.Nodup → (∀ k ∈ localKeys, k ∉ notionKeys) →
      filter_new_rows csvRows pages mapping keys = .ok (csvRows, [])) := by
  have hrows : ∀ r ∈ csvRows, ∃ k, extract_composite_key r keys = .ok k := by
    intro r hr
    obtain ⟨k, hk, _⟩ := mapE_mem_ok _ csvRows localKeys hlk r hr
    exact ⟨k, hk⟩
  have hchar : filter_new_rows csvRows pages mapping keys =
      .ok (csvRows.filter (fun r => !(keyHit keys notionKeys r)),
           csvRows.filter (keyHit keys notionKeys)) := by
    unfold filter_new_rows
    rw [hpk, ok_bind]
    exact filterAux_eq keys notionKeys csvRows hrows
  refine ⟨hchar, fun _ hdisj => ?_⟩
  have hmiss : ∀ r ∈ csvRows, keyHit keys notionKeys r = false := by
    intro r hr
    obtain ⟨k, hk, hkmem⟩ := mapE_mem_ok _ csvRows localKeys hlk r hr
    simp [keyHit, hk, hdisj k hkmem]
  rw [hchar]
  have h1 : csvRows.filter (fun r => !(keyHit keys notionKeys r)) = csvRows :=
    List.filter_eq_self.mpr (fun r hr => by simp [hmiss r hr])
  have h2 : csvRows.filter (keyHit keys notionKeys) = [] :=
    List.filter_eq_nil_iff.mpr (fun r hr => by simp [hmiss r hr])
  rw [h1, h2]

/-- C3 (witness): two local rows with distinct keys against an empty
remote set both land in `toCreate`, in order, with `toUpdate` empty. -/
theorem claim3_wit :
    filter_new_rows [[("Name", "A")], [("Name", "B")]] [] [("Name", ⟨"N", "title"⟩)]
      ["Name"] = .ok ([[("Name", "A")], [("Name", "B")]], []) := by
  have h := claim3_thm [[("Name", "A")], [("Name", "B")]] [] [("Name", ⟨"N", "title"⟩)]
    ["Name"] [] ["A", "B"] (by decide) (by decide)
  exact h.2 (by decide) (by decide)

/-- Scanning for the page id of a matching composite key returns the id
of the unique matching page, when remote keys are pairwise distinct. -/
lemma findPageId_unique (mapping : Mapping) (keys : List String) (pages : List Page)
    (ks : List String) (page : Page) (rk : String)
    (hks : mapE (fun p => extract_notion_composite_key p mapping keys) pages = .ok ks)
    (hnodup : ks.Nodup) (hpage : page ∈ pages)
    (hmatch : extract_notion_composite_key page mapping keys = .ok rk) :
    findPageId rk mapping keys pages = .ok (some page.id) := by
  induction pages generalizing ks with
  | nil => cases hpage
  | cons p ps ih =>
    cases hk : extract_notion_composite_key p mapping keys with
    | error e => simp [mapE, hk, error_bind] at hks
    | ok kp =>
      cases hrest : mapE (fun p => extract_notion_composite_key p mapping keys) ps with
      | error e => simp [mapE, hk, ok_bind, hrest, error_bind] at hks
      | ok kps =>
        simp [mapE, hk, ok_bind, hrest, error_bind] at hks
        subst hks
        by_cases heq : kp = rk
        · subst heq
          have : p = page := by
            rcases List.mem_cons.mp hpage with h0 | h0
            · exact h0.symm
            · exfalso
              obtain ⟨b, hb1, hb2⟩ := mapE_mem_ok _ ps kps hrest page h0
              rw [hmatch] at hb1
              have : b = kp := (Except.ok.inj hb1).symm
              subst this
              exact (List.nodup_cons.mp hnodup).1 hb2
          subst this
          simp [findPageId, hk, ok_bind]
        · have hpage' : page ∈ ps := by
            rcases List.mem_cons.mp hpage with h0 | h0
            · exfalso
              subst h0
              rw [hmatch] at hk
              exact heq (Except.ok.inj hk).symm
            · exact h0
          simp [findPageId, hk, ok_bind, heq]
          exact ih kps hrest (List.nodup_cons.mp hnodup).2 hpage'

/-- C4: when a local record and a remote record share a composite key
(remote keys pairwise distinct), the local record is classified into the
update list, the page-id scan resolves to exactly that remote record's
identifier, and the PATCH operation is issued against that identifier. -/
theorem claim4_thm (csvRows : List Row) (pages : List Page) (mapping : Mapping)
    (keys ks : List String) (row : Row) (page : Page) (rk : String)
    (hks : mapE (fun p => extract_notion_composite_key p mapping keys) pages = .ok ks)
    (hnodup : ks.Nodup)
    (hrow : row ∈ csvRows)
    (hpage : page ∈ pages)
    (hrk : extract_composite_key row keys = .ok rk)
    (hmatch : extract_notion_composite_key page mapping keys = .ok rk) :
    (∀ n u, filter_new_rows csvRows pages mapping keys = .ok (n, u) → row ∈ u) ∧
    findPageId rk mapping keys pages = .ok (some page.id) ∧
    (∀ resps ws fin pl, make_notion_payload row mapping = .ok pl →
      sendWithRetry resps = .ok (ws, fin) →
      updateRow mapping keys pages (row, resps) =
        .ok (if fin.status = 200 then .updated rk page.id
             else .updateFailed rk page.id fin.text)) := by
  have hkmem : rk ∈ ks := by
    obtain ⟨b, hb1, hb2⟩ := mapE_mem_ok _ pages ks hks page hpage
    rw [hmatch] at hb1
    exact (Except.ok.inj hb1) ▸ hb2
  have hfind : findPageId rk mapping keys pages = .ok (some page.id) :=
    findPageId_unique mapping keys pages ks page rk hks hnodup hpage hmatch
  refine ⟨?_, hfind, ?_⟩
  · intro n u hres
    unfold filter_new_rows at hres
    rw [hks, ok_bind] at hres
    exact filterAux_mem_update keys ks csvRows n u row rk hres hrow hrk hkmem
  · intro resps ws fin pl hpl hsend
    unfold updateRow
    rw [hrk, ok_bind, hfind, ok_bind]
    simp only []
    rw [hpl, ok_bind, hsend, ok_bind]
    by_cases hst : fin.status = 200
    · simp [hst]
    · simp [hst]

/-- C4 (witness): a concrete local row and remote page sharing the key
`W`; the PATCH is issued against page id `pid1`. -/
theorem claim4_wit :
    findPageId "W" [("Name", ⟨"N", "title"⟩)] ["Name"]
      [⟨"pid1", [("N", .title ["W"])]⟩] = .ok (some "pid1") ∧
    updateRow [("Name", ⟨"N", "title"⟩)] ["Name"] [⟨"pid1", [("N", .title ["W"])]⟩]
      ([("Name", "W")], [⟨200, none, "done"⟩]) = .ok (.updated "W" "pid1") := by
  have h := claim4_thm [[("Name", "W")]] [⟨"pid1", [("N", .title ["W"])]⟩]
    [("Name", ⟨"N", "title"⟩)] ["Name"] ["W"] [("Name", "W")]
    ⟨"pid1", [("N", .title ["W"])]⟩ "W"
    (by decide) (by decide) (by decide) (by decide) (by decide) (by decide)
  refine ⟨h.2.1, ?_⟩
  have h2 := h.2.2 [⟨200, none, "done"⟩] [] ⟨200, none, "done"⟩ [("N", .title "W")]
    (by decide) (by decide)
  simpa using h2

/-! ### Duplicate-key fail-fast lemmas (claim C5) -/

lemma load_csvAux_ok (keys : List String) (rows : List Row) (seen : List String)
    (out : List Row) (h : load_csvAux keys rows seen = .ok out) :
    out = rows ∧ ∃ ks, mapE (fun r => extract_composite_key r keys) rows = .ok ks ∧
      ks.Nodup ∧ ∀ k ∈ ks, k ∉ seen := by
  induction rows generalizing seen out with
  | nil =>
    simp [load_csvAux] at h
    subst h
    exact ⟨rfl, [], rfl, List.nodup_nil, by simp⟩
  | cons r rs ih =>
    cases hk : extract_composite_key r keys with
    | error e => simp [load_csvAux, hk, error_bind] at h
    | ok k =>
      by_cases hmem : k ∈ seen
      · simp [load_csvAux, hk, ok_bind, hmem] at h
      · cases hrest : load_csvAux keys rs (k :: seen) with
        | error e => simp [load_csvAux, hk, ok_bind, hmem, hrest, error_bind] at h
        | ok rest =>
          simp [load_csvAux, hk, ok_bind, hmem, hrest, error_bind] at h
          obtain ⟨hrs, ks, hks, hnd, hsub⟩ := ih (k :: seen) rest hrest
          subst hrs
          refine ⟨h.symm, k :: ks, by simp [mapE, hk, ok_bind, hks], ?_, ?_⟩
          · exact List.nodup_cons.mpr
              ⟨fun hc => (hsub k hc) (List.mem_cons_self _ _), hnd⟩
          · intro x hx
            rcases List.mem_cons.mp hx with hx | hx
            · exact hx ▸ hmem
            · exact fun hc => (hsub x hx) (List.mem_cons_of_mem _ hc)

lemma load_csvAux_firstdup (keys : List String) (pre : List Row) (r : Row)
    (rest : List Row) (pks : List String) (k : String) (seen : List String)
    (hpre : mapE (fun q => extract_composite_key q keys) pre = .ok pks)
    (hnodup : pks.Nodup) (hdisj : ∀ x ∈ pks, x ∉ seen)
    (hk : extract_composite_key r keys = .ok k) (hmem : k ∈ pks ∨ k ∈ seen) :
    load_csvAux keys (pre ++ r :: rest) seen = .error (.dupLocalKey k) := by
  induction pre generalizing pks seen with
  | nil =>
    simp [mapE] at hpre
    subst hpre
    have hks : k ∈ seen := by
      rcases hmem with hmem | hmem
      · cases hmem
      · exact hmem
    simp [load_csvAux, hk, ok_bind, hks]
  | cons q qs ih =>
    cases hkq : extract_composite_key q keys with
    | error e => simp [mapE, hkq, error_bind] at hpre
    | ok kq =>
      cases hrest : mapE (fun q => extract_composite_key q keys) qs with
      | error e => simp [mapE, hkq, ok_bind, hrest, error_bind] at hpre
      | ok kqs =>
        simp [mapE, hkq, ok_bind, hrest, error_bind] at hpre
        subst hpre
        have hq_not : kq ∉ seen := hdisj kq (List.mem_cons_self _ _)
        have hih := ih kqs (kq :: seen) hrest (List.nodup_cons.mp hnodup).2
          (by
            intro x hx hc
            rcases List.mem_cons.mp hc with hc | hc
            · exact (List.nodup_cons.mp hnodup).1 (hc ▸ hx)
            · exact hdisj x (List.mem_cons_of_mem _ hx) hc)
          (by
            rcases hmem with hmem | hmem
            · rcases List.mem_cons.mp hmem with hmem | hmem
              · exact Or.inr (hmem ▸ List.mem_cons_self _ _)
              · exact Or.inl hmem
            · exact Or.inr (List.mem_cons_of_mem _ hmem))
        simp only [List.cons_append, load_csvAux, hkq, ok_bind, List.append_eq]
        rw [if_neg hq_not, hih]
        rfl

lemma scanPages_ok (mapping : Mapping) (keys : List String) (ps : List Page)
    (seen : List String) (out : List Page) (seen' : List String)
    (h : scanPages mapping keys ps seen = .ok (out, seen')) :
    out = ps ∧ ∃ ks, mapE (fun p => extract_notion_composite_key p mapping keys) ps = .ok ks ∧
      ks.Nodup ∧ (∀ k ∈ ks, k ∉ seen) ∧ seen' = ks.reverse ++ seen := by
  induction ps generalizing seen out seen' with
  | nil =>
    simp [scanPages] at h
    exact ⟨h.1, [], rfl, List.nodup_nil, by simp, by simp [h.2]⟩
  | cons p ps ih =>
    cases hk : extract_notion_composite_key p mapping keys with
    | error e => simp [scanPages, hk, error_bind] at h
    | ok k =>
      by_cases hmem : k ∈ seen
      · simp [scanPages, hk, ok_bind, hmem] at h
      · cases hrest : scanPages mapping keys ps (k :: seen) with
        | error e => simp [scanPages, hk, ok_bind, hmem, hrest, error_bind] at h
        | ok pr =>
          obtain ⟨rest, seen''⟩ := pr
          simp [scanPages, hk, ok_bind, hmem, hrest, error_bind] at h
          obtain ⟨hrs, ks, hks, hnd, hsub, hseen⟩ := ih (k :: seen) rest seen'' hrest
          subst hrs
          refine ⟨h.1.symm, k :: ks, by simp [mapE, hk, ok_bind, hks], ?_, ?_, ?_⟩
          · exact List.nodup_cons.mpr
              ⟨fun hc => (hsub k hc) (List.mem_cons_self _ _), hnd⟩
          · intro x hx
            rcases List.mem_cons.mp hx with hx | hx
            · exact hx ▸ hmem
            · exact fun hc => (hsub x hx) (List.mem_cons_of_mem _ hc)
          · rw [← h.2, hseen]
            simp

lemma scanPages_firstdup (mapping : Mapping) (keys : List String) (pre : List Page)
    (p : Page) (rest : List Page) (pks : List String) (k : String) (seen : List String)
    (hpre : mapE (fun q => extract_notion_composite_key q mapping keys) pre = .ok pks)
    (hnodup : pks.Nodup) (hdisj : ∀ x ∈ pks, x ∉ seen)
    (hk : extract_notion_composite_key p mapping keys = .ok k)
    (hmem : k ∈ pks ∨ k ∈ seen) :
    scanPages mapping keys (pre ++ p :: rest) seen = .error (.dupRemoteKey k) := by
  induction pre generalizing pks seen with
  | nil =>
    simp [mapE] at hpre
    subst hpre
    have hks : k ∈ seen := by
      rcases hmem with hmem | hmem
      · cases hmem
      · exact hmem
    simp [scanPages, hk, ok_bind, hks]
  | cons q qs ih =>
    cases hkq : extract_notion_composite_key q mapping keys with
    | error e => simp [mapE, hkq, error_bind] at hpre
    | ok kq =>
      cases hrest : mapE (fun q => extract_notion_composite_key q mapping keys) qs with
      | error e => simp [mapE, hkq, ok_bind, hrest, error_bind] at hpre
      | ok kqs =>
        simp [mapE, hkq, ok_bind, hrest, error_bind] at hpre
        subst hpre
        have hq_not : kq ∉ seen := hdisj kq (List.mem_cons_self _ _)
        have hih := ih kqs (kq :: seen) hrest (List.nodup_cons.mp hnodup).2
          (by
            intro x hx hc
            rcases List.mem_cons.mp hc with hc | hc
            · exact (List.nodup_cons.mp hnodup).1 (hc ▸ hx)
            · exact hdisj x (List.mem_cons_of_mem _ hx) hc)
          (by
            rcases hmem with hmem | hmem
            · rcases List.mem_cons.mp hmem with hmem | hmem
              · exact Or.inr (hmem ▸ List.mem_cons_self _ _)
              · exact Or.inl hmem
            · exact Or.inr (List.mem_cons_of_mem _ hmem))
        simp only [List.cons_append, scanPages, hkq, ok_bind, List.append_eq]
        rw [if_neg hq_not, hih]
        rfl

lemma scanPages_append (mapping : Mapping) (keys : List String) (xs ys : List Page)
    (seen : List String) :
    scanPages mapping keys (xs ++ ys) seen =
      (scanPages mapping keys xs seen).bind
        (fun a => (scanPages mapping keys ys a.2).map (fun c => (a.1 ++ c.1, c.2))) := by
  induction xs generalizing seen with
  | nil =>
    cases hscan : scanPages mapping keys ys seen with
    | error e => simp [scanPages, Except.bind, ok_bind, hscan, Except.map]
    | ok pr => simp [scanPages, Except.bind, ok_bind, hscan, Except.map]
  | cons p ps ih =>
    cases hk : extract_notion_composite_key p mapping keys with
    | error e =>
      simp only [List.cons_append, scanPages, hk, error_bind]
      rfl
    | ok k =>
      by_cases hmem : k ∈ seen
      · simp only [List.cons_append, scanPages, hk, ok_bind, List.append_eq, if_pos hmem]
        rfl
      · simp only [List.cons_append, scanPages, hk, ok_bind, List.append_eq]
        rw [if_neg hmem, if_neg hmem, ih (k :: seen)]
        cases hscan : scanPages mapping keys ps (k :: seen) with
        | error e => simp [Except.bind, error_bind]
        | ok pr =>
          cases hscan2 : scanPages mapping keys ys pr.2 with
          | error e => simp [Except.bind, hscan2, Except.map, ok_bind, error_bind]
          | ok pr2 => simp [Except.bind, hscan2, Except.map, ok_bind]

lemma fetchAux_flat (mapping : Mapping) (keys : List String) (batches : List (List Page))
    (seen : List String) :
    fetchAux mapping keys batches seen =
      (scanPages mapping keys batches.flatten seen).map (fun x => x.1) := by
  induction batches generalizing seen with
  | nil => simp [fetchAux, scanPages, Except.map]
  | cons b bs ih =>
    rw [List.flatten_cons, scanPages_append]
    cases hscan : scanPages mapping keys b seen with
    | error e => simp [fetchAux, hscan, Except.bind, error_bind, Except.map]
    | ok pr =>
      obtain ⟨res, seen0⟩ := pr
      simp only [fetchAux, hscan, ok_bind]
      rw [ih seen0]
      cases hscan2 : scanPages mapping keys bs.flatten seen0 with
      | error e => simp [hscan2, Except.map, Except.bind, error_bind, ok_bind]
      | ok pr2 => simp [hscan2, Except.map, Except.bind, ok_bind]

/-- C5: duplicate composite keys are fatal and fail-fast. A successful
local load returns the rows unchanged with pairwise-distinct composite
keys; a local source whose first repeated key follows a distinct prefix
fails with the duplicate-local-key error naming that key; the paginated
remote fetch likewise returns the concatenated batches with
pairwise-distinct keys on success and fails with the duplicate-remote-key
error naming the first repeated key; and when the local load fails, the
whole run fails with that same error whatever the remote environment
holds — before any remote call is made. -/
theorem claim5_thm (mapping : Mapping) (keys : List String) :
    (∀ rows out, load_csv rows keys = .ok out → out = rows ∧
      ∃ ks, mapE (fun r => extract_composite_key r keys) rows = .ok ks ∧ ks.Nodup) ∧
    (∀ pre r rest pks k,
      mapE (fun q => extract_composite_key q keys) pre = .ok pks → pks.Nodup →
      extract_composite_key r keys = .ok k → k ∈ pks →
      load_csv (pre ++ r :: rest) keys = .error (.dupLocalKey k)) ∧
    (∀ batches out, get_notion_db_items batches mapping keys = .ok out →
      out = batches.flatten ∧
      ∃ ks, mapE (fun p => extract_notion_composite_key p mapping keys) batches.flatten =
        .ok ks ∧ ks.Nodup) ∧
    (∀ batches pre p rest pks k,
      batches.flatten = pre ++ p :: rest →
      mapE (fun q => extract_notion_composite_key q mapping keys) pre = .ok pks →
      pks.Nodup → extract_notion_composite_key p mapping keys = .ok k → k ∈ pks →
      get_notion_db_items batches mapping keys = .error (.dupRemoteKey k)) ∧
    (∀ rows e batches co uo d, load_csv rows keys = .error e →
      main_run rows batches mapping keys co uo d = .error e) := by
  refine ⟨?_, ?_, ?_, ?_, ?_⟩
  · intro rows out h
    obtain ⟨hout, ks, hks, hnd, _⟩ := load_csvAux_ok keys rows [] out h
    exact ⟨hout, ks, hks, hnd⟩
  · intro pre r rest pks k hpre hnd hk hmem
    exact load_csvAux_firstdup keys pre r rest pks k [] hpre hnd (by simp) hk (Or.inl hmem)
  · intro batches out h
    unfold get_notion_db_items at h
    rw [fetchAux_flat] at h
    cases hscan : scanPages mapping keys batches.flatten [] with
    | error e => rw [hscan] at h; cases h
    | ok pr =>
      rw [hscan] at h
      obtain ⟨res, seen'⟩ := pr
      have hout : out = res := by
        have : (Except.ok (res, seen') : Except PyErr (List Page × List String)).map
            (fun x => x.1) = Except.ok res := rfl
        rw [this] at h
        exact (Except.ok.inj h).symm
      obtain ⟨hres, ks, hks, hnd, _, _⟩ :=
        scanPages_ok mapping keys batches.flatten [] res seen' hscan
      exact ⟨hout.trans hres, ks, hks, hnd⟩
  · intro batches pre p rest pks k hjoin hpre hnd hk hmem
    unfold get_notion_db_items
    rw [fetchAux_flat, hjoin,
      scanPages_firstdup mapping keys pre p rest pks k [] hpre hnd (by simp) hk
        (Or.inl hmem)]
    rfl
  · intro rows e batches co uo d hload
    simp [main_run, hload, error_bind]

/-- C5 (witness): two rows with the same composite key `A` make the load
fail with the duplicate-local-key error, and the whole run fails the
same way although the remote environment contains a page. -/
theorem claim5_wit :
    load_csv [[("Name", "A")], [("Name", "A")]] ["Name"] = .error (.dupLocalKey "A") ∧
    main_run [[("Name", "A")], [("Name", "A")]] [[⟨"p1", [("N", .title ["Z"])]⟩]]
      [("Name", ⟨"N", "title"⟩)] ["Name"] (fun _ => []) (fun _ => []) false =
      .error (.dupLocalKey "A") := by
  have h := claim5_thm [("Name", ⟨"N", "title"⟩)] ["Name"]
  have hdup : load_csv [[("Name", "A")], [("Name", "A")]] ["Name"] =
      .error (.dupLocalKey "A") :=
    h.2.1 [[("Name", "A")]] [("Name", "A")] [] ["A"] "A" (by decide) (by decide)
      (by decide) (by decide)
  exact ⟨hdup, h.2.2.2.2 [[("Name", "A")], [("Name", "A")]] (.dupLocalKey "A")
    [[⟨"p1", [("N", .title ["Z"])]⟩]] (fun _ => []) (fun _ => []) false hdup⟩

/-! ### Rate-limit retry (claim C6) -/

/-- C6: for a response run of any number of 429s followed by a success,
the request loop performs exactly one backoff wait per 429 received, each
of exactly the server-suggested Retry-After duration (1 when absent), in
order, and then reports the successful final response — no retry bound. -/
theorem claim6_thm (rs : List Resp) (done : Resp) (h429 : ∀ r ∈ rs, r.status = 429)
    (hok : done.status = 200) :
    sendWithRetry (rs ++ [done]) = .ok (rs.map (fun r => r.retryAfter.getD 1), done) := by
  induction rs with
  | nil => simp [sendWithRetry, hok]
  | cons r rs ih =>
    have hr : r.status = 429 := h429 r (List.mem_cons_self _ _)
    have hne : ¬r.status = 200 := by
      rw [hr]
      decide
    have ihh := ih (fun x hx => h429 x (List.mem_cons_of_mem _ hx))
    simp [sendWithRetry, hne, hr, ihh, ok_bind]

/-- C6 (witness): two 429s with suggested waits 2 and 1 then a 200
produce exactly the waits 2 then 1 and then success. -/
theorem claim6_wit :
    sendWithRetry [⟨429, some 2, ""⟩, ⟨429, some 1, ""⟩, ⟨200, none, "ok"⟩] =
      .ok ([2, 1], ⟨200, none, "ok"⟩) := by
  have h := claim6_thm [⟨429, some 2, ""⟩, ⟨429, some 1, ""⟩] ⟨200, none, "ok"⟩
    (by decide) (by decide)
  simpa using h

/-! ### Batch independence of permanent failures (claim C7) -/

lemma register_append (mapping : Mapping) (keys : List String)
    (xs ys : List (Row × List Resp)) (a b : List WriteEvent)
    (hx : register_to_notion mapping keys xs = .ok a)
    (hy : register_to_notion mapping keys ys = .ok b) :
    register_to_notion mapping keys (xs ++ ys) = .ok (a ++ b) := by
  induction xs generalizing a with
  | nil =>
    simp [register_to_notion] at hx
    subst hx
    simpa using hy
  | cons x xs ih =>
    cases hrow : registerRow mapping keys x with
    | error e => simp [register_to_notion, hrow, error_bind] at hx
    | ok ev =>
      cases hrest : register_to_notion mapping keys xs with
      | error e => simp [register_to_notion, hrow, ok_bind, hrest, error_bind] at hx
      | ok evs =>
        simp [register_to_notion, hrow, ok_bind, hrest, error_bind] at hx
        subst hx
        simp [register_to_notion, hrow, ok_bind, ih evs hrest]

lemma register_length (mapping : Mapping) (keys : List String)
    (xs : List (Row × List Resp)) (evs : List WriteEvent)
    (h : register_to_notion mapping keys xs = .ok evs) : evs.length = xs.length := by
  induction xs generalizing evs with
  | nil =>
    simp [register_to_notion] at h
    subst h
    rfl
  | cons x xs ih =>
    cases hrow : registerRow mapping keys x with
    | error e => simp [register_to_notion, hrow, error_bind] at h
    | ok ev =>
      cases hrest : register_to_notion mapping keys xs with
      | error e => simp [register_to_notion, hrow, ok_bind, hrest, error_bind] at h
      | ok evs' =>
        simp [register_to_notion, hrow, ok_bind, hrest, error_bind] at h
        subst h
        simp [ih evs' hrest]

lemma update_append (mapping : Mapping) (keys : List String) (pages : List Page)
    (xs ys : List (Row × List Resp)) (a b : List WriteEvent)
    (hx : update_notion mapping keys pages xs = .ok a)
    (hy : update_notion mapping keys pages ys = .ok b) :
    update_notion mapping keys pages (xs ++ ys) = .ok (a ++ b) := by
  induction xs generalizing a with
  | nil =>
    simp [update_notion] at hx
    subst hx
    simpa using hy
  | cons x xs ih =>
    cases hrow : updateRow mapping keys pages x with
    | error e => simp [update_notion, hrow, error_bind] at hx
    | ok ev =>
      cases hrest : update_notion mapping keys pages xs with
      | error e => simp [update_notion, hrow, ok_bind, hrest, error_bind] at hx
      | ok evs =>
        simp [update_notion, hrow, ok_bind, hrest, error_bind] at hx
        subst hx
        simp [update_notion, hrow, ok_bind, ih evs hrest]

lemma update_length (mapping : Mapping) (keys : List String) (pages : List Page)
    (xs : List (Row × List Resp)) (evs : List WriteEvent)
    (h : update_notion mapping keys pages xs = .ok evs) : evs.length = xs.length := by
  induction xs generalizing evs with
  | nil =>
    simp [update_notion] at h
    subst h
    rfl
  | cons x xs ih =>
    cases hrow : updateRow mapping keys pages x with
    | error e => simp [update_notion, hrow, error_bind] at h
    | ok ev =>
      cases hrest : update_notion mapping keys pages xs with
      | error e => simp [update_notion, hrow, ok_bind, hrest, error_bind] at h
      | ok evs' =>
        simp [update_notion, hrow, ok_bind, hrest, error_bind] at h
        subst h
        simp [ih evs' hrest]

/-- C7: a non-429 non-success response for one record makes exactly that
record a permanent failure carrying its composite key and the response
detail; the surrounding batch — both for creates and for updates — is
processed exactly once per record in order, the records before and after
yield exactly the events they would yield anyway, and prior successes are
untouched. -/
theorem claim7_thm (mapping : Mapping) (keys : List String) (pages : List Page)
    (pre post pre2 post2 : List (Row × List Resp)) (r r2 : Row) (resps resps2 : List Resp)
    (k k2 pid : String) (ws ws2 : List Nat) (fin fin2 : Resp) (pl pl2 : Props)
    (evsPre evsPost evsPre2 evsPost2 : List WriteEvent)
    (h1 : register_to_notion mapping keys pre = .ok evsPre)
    (h2 : register_to_notion mapping keys post = .ok evsPost)
    (hpl : make_notion_payload r mapping = .ok pl)
    (hsend : sendWithRetry resps = .ok (ws, fin))
    (hfail : fin.status ≠ 200)
    (hk : extract_composite_key r keys = .ok k)
    (g1 : update_notion mapping keys pages pre2 = .ok evsPre2)
    (g2 : update_notion mapping keys pages post2 = .ok evsPost2)
    (gk : extract_composite_key r2 keys = .ok k2)
    (gfind : findPageId k2 mapping keys pages = .ok (some pid))
    (gpl : make_notion_payload r2 mapping = .ok pl2)
    (gsend : sendWithRetry resps2 = .ok (ws2, fin2))
    (gfail : fin2.status ≠ 200) :
    register_to_notion mapping keys (pre ++ (r, resps) :: post) =
      .ok (evsPre ++ .createFailed k fin.text :: evsPost) ∧
    evsPre.length = pre.length ∧ evsPost.length = post.length ∧
    update_notion mapping keys pages (pre2 ++ (r2, resps2) :: post2) =
      .ok (evsPre2 ++ .updateFailed k2 pid fin2.text :: evsPost2) ∧
    evsPre2.length = pre2.length ∧ evsPost2.length = post2.length := by
  have hrow : registerRow mapping keys (r, resps) = .ok (.createFailed k fin.text) := by
    simp [registerRow, hpl, ok_bind, hsend, hk, hfail]
  have hmid : register_to_notion mapping keys ((r, resps) :: post) =
      .ok (.createFailed k fin.text :: evsPost) := by
    simp [register_to_notion, hrow, ok_bind, h2]
  have grow : updateRow mapping keys pages (r2, resps2) =
      .ok (.updateFailed k2 pid fin2.text) := by
    unfold updateRow
    rw [gk, ok_bind, gfind, ok_bind]
    simp only []
    rw [gpl, ok_bind, gsend, ok_bind]
    simp [gfail]
  have gmid : update_notion mapping keys pages ((r2, resps2) :: post2) =
      .ok (.updateFailed k2 pid fin2.text :: evsPost2) := by
    simp [update_notion, grow, ok_bind, g2]
  exact ⟨register_append mapping keys pre _ evsPre _ h1 hmid,
    register_length mapping keys pre evsPre h1,
    register_length mapping keys post evsPost h2,
    update_append mapping keys pages pre2 _ evsPre2 _ g1 gmid,
    update_length mapping keys pages pre2 evsPre2 g1,
    update_length mapping keys pages post2 evsPost2 g2⟩

/-- C7 (witness): in a three-record create batch whose middle record gets
a 500 response, and a three-record update batch likewise, only the middle
record fails and the neighbours' events are unchanged. -/
theorem claim7_wit :
    register_to_notion [("Name", ⟨"N", "title"⟩)] ["Name"]
      [([("Name", "A")], [⟨200, none, ""⟩]),
       ([("Name", "B")], [⟨500, none, "boom"⟩]),
       ([("Name", "C")], [⟨200, none, ""⟩])] =
      .ok [.created "A", .createFailed "B" "boom", .created "C"] ∧
    update_notion [("Name", ⟨"N", "title"⟩)] ["Name"]
      [⟨"pa", [("N", .title ["A"])]⟩, ⟨"pb", [("N", .title ["B"])]⟩,
       ⟨"pc", [("N", .title ["C"])]⟩]
      [([("Name", "A")], [⟨200, none, ""⟩]),
       ([("Name", "B")], [⟨500, none, "boom"⟩]),
       ([("Name", "C")], [⟨200, none, ""⟩])] =
      .ok [.updated "A" "pa", .updateFailed "B" "pb" "boom", .updated "C" "pc"] := by
  have h := claim7_thm [("Name", ⟨"N", "title"⟩)] ["Name"]
    [⟨"pa", [("N", .title ["A"])]⟩, ⟨"pb", [("N", .title ["B"])]⟩,
     ⟨"pc", [("N", .title ["C"])]⟩]
    [([("Name", "A")], [⟨200, none, ""⟩])] [([("Name", "C")], [⟨200, none, ""⟩])]
    [([("Name", "A")], [⟨200, none, ""⟩])] [([("Name", "C")], [⟨200, none, ""⟩])]
    [("Name", "B")] [("Name", "B")] [⟨500, none, "boom"⟩] [⟨500, none, "boom"⟩]
    "B" "B" "pb" [] [] ⟨500, none, "boom"⟩ ⟨500, none, "boom"⟩
    [("N", .title "B")] [("N", .title "B")]
    [.created "A"] [.created "C"] [.updated "A" "pa"] [.updated "C" "pc"]
    (by decide) (by decide) (by decide) (by decide) (by decide) (by decide)
    (by decide) (by decide) (by decide) (by decide) (by decide) (by decide) (by decide)
  exact ⟨h.1, h.2.2.2.1⟩

/-! ### Unsupported field kinds (claim C8) -/

lemma payloadAux_skip (row : Row) (pre post : Mapping) (c : String) (mi : MapInfo)
    (hunsup : mi.type ∉ supportedKinds) (hc : ∃ v, rowGet row c = .ok v) :
    ∀ props, payloadAux row (pre ++ (c, mi) :: post) props = payloadAux row (pre ++ post) props := by
  induction pre with
  | nil =>
    intro props
    obtain ⟨v, hv⟩ := hc
    simp [payloadAux, hv, ok_bind, encodeField_unsupported mi.type v hunsup]
  | cons q qs ih =>
    intro props
    obtain ⟨c', mi'⟩ := q
    cases hv' : rowGet row c' with
    | error e => simp [payloadAux, hv', error_bind]
    | ok v' =>
      cases henc : encodeField mi'.type v' with
      | none => simp [payloadAux, hv', ok_bind, henc, ih]
      | some pv => simp [payloadAux, hv', ok_bind, henc, ih]

/-- C8 (counterexample): the claim as stated fails — encoding a record
with a field of unsupported kind `files` raises no `UnsupportedFieldKind`
error (no such error exists in the code): the payload builder returns
normally, silently omitting the unsupported field while keeping the
record's remaining fields, and records no warning. -/
theorem claim8_cex :
    make_notion_payload [("A", "a"), ("B", "b"), ("C", "c")]
      [("A", ⟨"PA", "title"⟩), ("B", ⟨"PB", "files"⟩), ("C", ⟨"PC", "text"⟩)] =
      .ok [("PA", .title "a"), ("PC", .rich_text "c")] := by
  decide

/-- C8 (amended): for every field whose configured kind is outside the
supported set, the upsert payload builder raises no error and records no
warning: it behaves exactly as if the mapping entry were absent, silently
omitting that field and continuing to encode the record's remaining
fields rather than aborting the record. -/
theorem claim8_thm (row : Row) (mapping pre post : Mapping) (c : String) (mi : MapInfo)
    (hsplit : mapping = pre ++ (c, mi) :: post)
    (hunsup : mi.type ∉ supportedKinds)
    (hc : ∃ v, rowGet row c = .ok v) :
    make_notion_payload row mapping = make_notion_payload row (pre ++ post) := by
  subst hsplit
  exact payloadAux_skip row pre post c mi hunsup hc []

/-- C8 (witness): the amended behaviour at the concrete `files` mapping
entry — the payload equals the payload of the mapping without it. -/
theorem claim8_wit :
    make_notion_payload [("A", "a"), ("B", "b"), ("C", "c")]
      [("A", ⟨"PA", "title"⟩), ("B", ⟨"PB", "files"⟩), ("C", ⟨"PC", "text"⟩)] =
    make_notion_payload [("A", "a"), ("B", "b"), ("C", "c")]
      [("A", ⟨"PA", "title"⟩), ("C", ⟨"PC", "text"⟩)] := by
  have h := claim8_thm [("A", "a"), ("B", "b"), ("C", "c")]
    [("A", ⟨"PA", "title"⟩), ("B", ⟨"PB", "files"⟩), ("C", ⟨"PC", "text"⟩)]
    [("A", ⟨"PA", "title"⟩)] [("C", ⟨"PC", "text"⟩)] "B" ⟨"PB", "files"⟩
    rfl (by decide) ⟨"b", by decide⟩
  exact h

/-! ### Run outcome versus per-record failures (claims C9 and C10) -/

lemma register_total (mapping : Mapping) (keys : List String) (xs : List (Row × List Resp))
    (h : ∀ x ∈ xs, ∃ ev, registerRow mapping keys x = .ok ev) :
    ∃ evs, register_to_notion mapping keys xs = .ok evs ∧ evs.length = xs.length := by
  induction xs with
  | nil => exact ⟨[], rfl, rfl⟩
  | cons x xs ih =>
    obtain ⟨ev, hev⟩ := h x (List.mem_cons_self _ _)
    obtain ⟨evs, hevs, hlen⟩ := ih (fun y hy => h y (List.mem_cons_of_mem _ hy))
    exact ⟨ev :: evs, by simp [register_to_notion, hev, ok_bind, hevs], by simp [hlen]⟩

lemma update_total (mapping : Mapping) (keys : List String) (pages : List Page)
    (xs : List (Row × List Resp))
    (h : ∀ x ∈ xs, ∃ ev, updateRow mapping keys pages x = .ok ev) :
    ∃ evs, update_notion mapping keys pages xs = .ok evs ∧ evs.length = xs.length := by
  induction xs with
  | nil => exact ⟨[], rfl, rfl⟩
  | cons x xs ih =>
    obtain ⟨ev, hev⟩ := h x (List.mem_cons_self _ _)
    obtain ⟨evs, hevs, hlen⟩ := ih (fun y hy => h y (List.mem_cons_of_mem _ hy))
    exact ⟨ev :: evs, by simp [update_notion, hev, ok_bind, hevs], by simp [hlen]⟩

lemma withResps_length (rows : List Row) (oracle : Nat → List Resp) :
    (withResps rows oracle).length = rows.length := by
  simp [withResps]

/-- C9 (counterexample): the claim as stated fails — a run in which a
record-scoped write failure occurs (one new row receiving a 500) still
completes with the success exit status: the write failure is only
recorded as a per-record event, and the final status is 0. -/
theorem claim9_cex :
    main_run [[("Name", "W")]] [] [("Name", ⟨"N", "title"⟩)] ["Name"]
      (fun _ => [⟨500, none, "boom"⟩]) (fun _ => []) false =
      .ok [.createFailed "W" "boom"] ∧
    exitCode (main_run [[("Name", "W")]] [] [("Name", ⟨"N", "title"⟩)] ["Name"]
      (fun _ => [⟨500, none, "boom"⟩]) (fun _ => []) false) = 0 := by
  exact ⟨by decide, by decide⟩

/-- C9 (amended): record-scoped remote write failures never change the
run's final status: whenever the load, fetch and classification phases
succeed and every row's write attempt terminates (whatever its final
status code), the run completes with one event per row and exits with
the success status — whether or not any of those events is a permanent
failure. -/
theorem claim9_thm (rows : List Row) (batches : List (List Page)) (mapping : Mapping)
    (keys : List String) (co uo : Nat → List Resp) (csvRows : List Row) (pages : List Page)
    (newRows updateRows : List Row)
    (hload : load_csv rows keys = .ok csvRows)
    (hfetch : get_notion_db_items batches mapping keys = .ok pages)
    (hfilter : filter_new_rows csvRows pages mapping keys = .ok (newRows, updateRows))
    (hreg : ∀ x ∈ withResps newRows co, ∃ ev, registerRow mapping keys x = .ok ev)
    (hupd : ∀ x ∈ withResps updateRows uo, ∃ ev, updateRow mapping keys pages x = .ok ev) :
    ∃ evs, main_run rows batches mapping keys co uo false = .ok evs ∧
      evs.length = newRows.length + updateRows.length ∧
      exitCode (main_run rows batches mapping keys co uo false) = 0 := by
  obtain ⟨evs1, hevs1, hlen1⟩ := register_total mapping keys (withResps newRows co) hreg
  obtain ⟨evs2, hevs2, hlen2⟩ := update_total mapping keys pages (withResps updateRows uo) hupd
  have hrun : main_run rows batches mapping keys co uo false = .ok (evs1 ++ evs2) := by
    simp [main_run, hload, ok_bind, hfetch, hfilter, hevs1, hevs2]
  refine ⟨evs1 ++ evs2, hrun, ?_, ?_⟩
  · simp [hlen1, hlen2, withResps_length]
  · simp [exitCode, hrun]

/-- C9 (witness): the amended theorem applied to the concrete failing run
of the counterexample input: the run completes with one event and exits
successfully. -/
theorem claim9_wit :
    ∃ evs, main_run [[("Name", "W")]] [] [("Name", ⟨"N", "title"⟩)] ["Name"]
      (fun _ => [⟨500, none, "boom"⟩]) (fun _ => []) false = .ok evs ∧
      evs.length = 1 + 0 ∧
      exitCode (main_run [[("Name", "W")]] [] [("Name", ⟨"N", "title"⟩)] ["Name"]
        (fun _ => [⟨500, none, "boom"⟩]) (fun _ => []) false) = 0 := by
  exact claim9_thm [[("Name", "W")]] [] [("Name", ⟨"N", "title"⟩)] ["Name"]
    (fun _ => [⟨500, none, "boom"⟩]) (fun _ => []) [[("Name", "W")]] []
    [[("Name", "W")]] []
    (by decide) (by decide) (by decide)
    (by
      intro x hx
      have hx' : x = ([("Name", "W")], [⟨500, none, "boom"⟩]) := by
        simpa [withResps, List.enum] using hx
      subst hx'
      exact ⟨.createFailed "W" "boom", by decide⟩)
    (by
      intro x hx
      simp [withResps] at hx)

/-- The first mapping entry whose CSV column is absent from the row makes
the payload builder raise `KeyError` for that column. -/
lemma payloadAux_err (row : Row) (pre post : Mapping) (c : String) (mi : MapInfo)
    (hpre : ∀ p ∈ pre, ∃ v, rowGet row p.1 = .ok v) (hnone : alookup row c = none) :
    ∀ props, payloadAux row (pre ++ (c, mi) :: post) props = .error (.keyError c) := by
  induction pre with
  | nil =>
    intro props
    have hrg : rowGet row c = .error (.keyError c) := by simp [rowGet, hnone]
    simp [payloadAux, hrg, error_bind]
  | cons q qs ih =>
    intro props
    obtain ⟨v, hv⟩ := hpre q (List.mem_cons_self _ _)
    have hqs : ∀ p ∈ qs, ∃ v, rowGet row p.1 = .ok v :=
      fun p hp => hpre p (List.mem_cons_of_mem _ hp)
    cases henc : encodeField q.2.type v with
    | none => simp [payloadAux, hv, ok_bind, henc, ih hqs]
    | some pv => simp [payloadAux, hv, ok_bind, henc, ih hqs]

/-- C10: `make_notion_payload` reads `row[csv_col]` unguarded for every
mapped column — when every mapped column is present in the row, the
builder always returns normally, and when some mapped column is absent
(all earlier mapped columns being present) it raises the key-lookup error
naming that column; the error is raised on the first record processed and
aborts the whole create batch with no events. -/
theorem claim10_thm (row : Row) (mapping : Mapping) (keys : List String) :
    ((∀ p ∈ mapping, ∃ v, rowGet row p.1 = .ok v) →
      ∃ ps, make_notion_payload row mapping = .ok ps) ∧
    (∀ pre c mi post, mapping = pre ++ (c, mi) :: post →
      (∀ p ∈ pre, ∃ v, rowGet row p.1 = .ok v) → alookup row c = none →
      make_notion_payload row mapping = .error (.keyError c)) ∧
    (∀ e resps rest, make_notion_payload row mapping = .error e →
      register_to_notion mapping keys ((row, resps) :: rest) = .error e) := by
  refine ⟨?_, ?_, ?_⟩
  · intro h
    exact payloadAux_ok row mapping [] h
  · intro pre c mi post hsplit hpre hnone
    subst hsplit
    exact payloadAux_err row pre post c mi hpre hnone []
  · intro e resps rest herr
    have hrow : registerRow mapping keys (row, resps) = .error e := by
      simp [registerRow, herr, error_bind]
    simp [register_to_notion, hrow, error_bind]

/-- C10 (witness): a mapping naming the column `Ghost` absent from the
CSV header makes the payload fail with `KeyError` on the first record and
aborts the batch, while with all columns present the builder succeeds. -/
theorem claim10_wit :
    make_notion_payload [("Name", "W")]
      [("Name", ⟨"N", "title"⟩), ("Ghost", ⟨"G", "text"⟩)] =
      .error (.keyError "Ghost") ∧
    register_to_notion [("Name", ⟨"N", "title"⟩), ("Ghost", ⟨"G", "text"⟩)] ["Name"]
      [([("Name", "W")], [⟨200, none, ""⟩])] = .error (.keyError "Ghost") ∧
    ∃ ps, make_notion_payload [("Name", "W")] [("Name", ⟨"N", "title"⟩)] = .ok ps := by
  have h := claim10_thm [("Name", "W")]
    [("Name", ⟨"N", "title"⟩), ("Ghost", ⟨"G", "text"⟩)] ["Name"]
  have herr : make_notion_payload [("Name", "W")]
      [("Name", ⟨"N", "title"⟩), ("Ghost", ⟨"G", "text"⟩)] = .error (.keyError "Ghost") :=
    h.2.1 [("Name", ⟨"N", "title"⟩)] "Ghost" ⟨"G", "text"⟩ [] rfl
      (by
        intro p hp
        have hp' : p = ("Name", (⟨"N", "title"⟩ : MapInfo)) := by simpa using hp
        subst hp'
        exact ⟨"W", by decide⟩)
      (by decide)
  refine ⟨herr, h.2.2 (.keyError "Ghost") [⟨200, none, ""⟩] [] herr, ?_⟩
  have h2 := claim10_thm [("Name", "W")] [("Name", ⟨"N", "title"⟩)] ["Name"]
  exact h2.1 (by
    intro p hp
    have hp' : p = ("Name", (⟨"N", "title"⟩ : MapInfo)) := by simpa using hp
    subst hp'
    exact ⟨"W", by decide⟩)

end CsvNotion
